import Mathlib

/-!
Verification of the UrnaDB storage core (`vfs/lfs.go`, `vfs/pipeline.go`,
`vfs/segment.go`, `types/table.go`) against its natural-language
specification.  The Go code is shallowly embedded: byte strings are
`List Nat` with values reduced modulo 256 by every encoder, Go's signed
fixed-width integers are `Int` with explicit two's-complement reduction
where the bit pattern matters, Go maps are association lists observed
through lookup, and fallible code returns explicit result types.  A Go
panic (out-of-range slice, `CryptBlocks` on a ragged buffer) is a
distinguished `panicked`/`panics` outcome, never a Lean error.
-/

set_option maxRecDepth 4000

namespace UrnaDB

/-- Byte values are naturals; encoders reduce modulo 256. -/
abbrev Byte := Nat

/-- Little-endian encoding of `n` into `w` bytes, as produced by Go's
`binary.Write(buf, binary.LittleEndian, v)` for a `w`-byte value. -/
def leN : Nat → Nat → List Byte
  | 0, _ => []
  | w + 1, n => n % 256 :: leN w (n / 256)

/-- Two's-complement bit pattern of a signed value in `w` bytes, as a natural. -/
def toUns (w : Nat) (i : Int) : Nat := (i % ((2 : Int) ^ (8 * w))).toNat

def leU64 (n : Nat) : List Byte := leN 8 n
def leU32 (n : Nat) : List Byte := leN 4 n
def leI64 (i : Int) : List Byte := leN 8 (toUns 8 i)
def leI32 (i : Int) : List Byte := leN 4 (toUns 4 i)
def leI8 (i : Int) : List Byte := leN 1 (toUns 1 i)

/-- Little-endian read of a byte list as an unsigned natural. -/
def deLE (bs : List Byte) : Nat := bs.foldr (fun b acc => b % 256 + 256 * acc) 0

/-- Reinterpret a `w`-byte unsigned value as its signed (two's-complement) reading. -/
def toSigned (w : Nat) (n : Nat) : Int :=
  let m := n % 2 ^ (8 * w)
  if m < 2 ^ (8 * w - 1) then (m : Int) else (m : Int) - 2 ^ (8 * w)

def toI64 (n : Nat) : Int := toSigned 8 n
def toI32 (n : Nat) : Int := toSigned 4 n
def toI8 (n : Nat) : Int := toSigned 1 n

/-- One shift-xor round of the bit-reflected CRC-32 (IEEE polynomial 0xEDB88320),
as computed by Go's `hash/crc32.ChecksumIEEE`. -/
def crc32Round (c : Nat) : Nat :=
  if c % 2 = 1 then (c / 2) ^^^ 0xEDB88320 else c / 2

def crc32Byte (c b : Nat) : Nat := crc32Round^[8] (c ^^^ (b % 256))

/-- CRC-32 (IEEE) of a byte list: init 0xFFFFFFFF, per-byte reflected rounds,
final complement. -/
def crc32 (bs : List Byte) : Nat := 0xFFFFFFFF ^^^ bs.foldl crc32Byte 0xFFFFFFFF

/-- A slice `file[off : off+len]` of a byte list (Go positional `ReadAt` view). -/
def sub (file : List Byte) (off len : Nat) : List Byte := (file.drop off).take len

lemma leN_length (w n : Nat) : (leN w n).length = w := by
  induction w generalizing n with
  | zero => rfl
  | succ w ih => simp [leN, ih]

lemma leU64_length (n : Nat) : (leU64 n).length = 8 := leN_length 8 _
lemma leU32_length (n : Nat) : (leU32 n).length = 4 := leN_length 4 _
lemma leI64_length (i : Int) : (leI64 i).length = 8 := leN_length 8 _
lemma leI32_length (i : Int) : (leI32 i).length = 4 := leN_length 4 _
lemma leI8_length (i : Int) : (leI8 i).length = 1 := leN_length 1 _

/-! ## Segments (`vfs/segment.go`, current revision with `UnixMicro` timestamps) -/

/-- Record kinds, `kind int8` in the source: set, zset, table, record, unknown, leaselock. -/
def kindTable : Int := 2
def kindUnknown : Int := 4

/-- Sentinel for entries with no expiry, `const ImmortalTTL = -1`. -/
def ImmortalTTL : Int := -1

/-- On-disk segment record
`| DEL 1 | KIND 1 | EAT 8 | CAT 8 | KLEN 4 | VLEN 4 | KEY ? | VALUE ? | CRC32 4 |`.
`Ty` stands for the source field `Type` (a Lean keyword). -/
structure Segment where
  Tombstone : Int
  Ty : Int
  ExpiredAt : Int
  CreatedAt : Int
  KeySize : Int
  ValueSize : Int
  Key : List Byte
  Value : List Byte
deriving DecidableEq

def _SEGMENT_PADDING : Nat := 26
def _INDEX_SEGMENT_SIZE : Nat := 49

/-- `(*Segment).Size`: whole-record byte count, header plus key plus value plus CRC. -/
def Segment.Size (s : Segment) : Int := 26 + s.KeySize + s.ValueSize + 4

/-- `(*Segment).IsTombstone`. -/
def Segment.IsTombstone (s : Segment) : Bool := s.Tombstone == 1

/-- `serializedSegment`: header fields in order, key, value, then CRC-32 over all
preceding bytes, everything little-endian. -/
def serializedSegment (s : Segment) : List Byte :=
  let body := leI8 s.Tombstone ++ leI8 s.Ty ++ leI64 s.ExpiredAt ++ leI64 s.CreatedAt ++
    leI32 s.KeySize ++ leI32 s.ValueSize ++ s.Key ++ s.Value
  body ++ leU32 (crc32 body)

/-- Outcome of `readSegment`: success, a returned Go error, or a Go runtime panic
(`make` with a negative size when a corrupted header yields a negative length field). -/
inductive SegRead
  | ok (inum : Nat) (seg : Segment)
  | err
  | panics
deriving DecidableEq

/-- `readSegment(fd, offset, _SEGMENT_PADDING)`: reads the 26-byte header, key, value
and CRC at `offset`, verifies the CRC over header++key++value, then passes the value
bytes through `transformer.Decode` and returns the decoded bytes in `seg.Value`.
The murmur3 key hash and the process-wide transformer are parameters (`hash`,
`tdecode`); a short positional read is an error. -/
def readSegment (hash : List Byte → Nat) (tdecode : List Byte → Option (List Byte))
    (file : List Byte) (offset : Nat) : SegRead :=
  if offset + 26 > file.length then .err else
  let buf := sub file offset 26
  let tombstone := toI8 (deLE (sub buf 0 1))
  let ty := toI8 (deLE (sub buf 1 1))
  let expiredAt := toI64 (deLE (sub buf 2 8))
  let createdAt := toI64 (deLE (sub buf 10 8))
  let keySize := toI32 (deLE (sub buf 18 4))
  let valueSize := toI32 (deLE (sub buf 22 4))
  if keySize < 0 ∨ valueSize < 0 then .panics else
  let ks := keySize.toNat
  let vs := valueSize.toNat
  if offset + 26 + ks > file.length then .err else
  let keybuf := sub file (offset + 26) ks
  if offset + 26 + ks + vs > file.length then .err else
  let valuebuf := sub file (offset + 26 + ks) vs
  if offset + 26 + ks + vs + 4 > file.length then .err else
  let checksum := deLE (sub file (offset + 26 + ks + vs) 4)
  if checksum ≠ crc32 (buf ++ keybuf ++ valuebuf) then .err else
  match tdecode valuebuf with
  | none => .err
  | some decoded =>
      .ok (hash keybuf)
        { Tombstone := tombstone, Ty := ty, ExpiredAt := expiredAt, CreatedAt := createdAt,
          KeySize := keySize, ValueSize := valueSize, Key := keybuf, Value := decoded }

/-! ## The in-memory index (`inode`, sharded maps) -/

/-- In-memory `inode`; `Ty` stands for the source field `Type`. -/
structure Inode where
  RegionID : Int
  Position : Int
  ExpiredAt : Int
  CreatedAt : Int
  mvcc : Nat
  Length : Int
  Ty : Int
deriving DecidableEq

/-- The ten `indexMap` shards partition inodes by `inum % 10`; since the shard of an
`inum` is a function of the `inum` alone, the whole index is modelled as one map
(an association list observed through lookup). -/
abbrev Index := List (Nat × Inode)

def idxLookup : Index → Nat → Option Inode
  | [], _ => none
  | (k', v) :: rest, k => if k' = k then some v else idxLookup rest k

def idxInsert : Index → Nat → Inode → Index
  | [], k, v => [(k, v)]
  | (k', v') :: rest, k, v =>
      if k' = k then (k, v) :: rest else (k', v') :: idxInsert rest k v

def idxErase : Index → Nat → Index
  | [], _ => []
  | (k', v') :: rest, k => if k' = k then rest else (k', v') :: idxErase rest k

lemma idxLookup_idxInsert_self (m : Index) (k : Nat) (v : Inode) :
    idxLookup (idxInsert m k v) k = some v := by
  induction m with
  | nil => simp [idxInsert, idxLookup]
  | cons hd tl ih =>
      by_cases h : hd.1 = k
      · simp [idxInsert, h, idxLookup]
      · simp [idxInsert, h, idxLookup, ih]

/-! ## Index snapshot / checkpoint records (`serializedIndex`, `deserializedIndex`) -/

/-- `serializedIndex`: one snapshot record
`| INUM 8 | RID 8 | POS 8 | LEN 4 | EAT 8 | CAT 8 | T 1 | CRC32 4 |`,
CRC-32 over all preceding bytes of the record. -/
def serializedIndex (inum : Nat) (ind : Inode) : List Byte :=
  let body := leU64 inum ++ leI64 ind.RegionID ++ leI64 ind.Position ++ leI32 ind.Length ++
    leI64 ind.ExpiredAt ++ leI64 ind.CreatedAt ++ leI8 ind.Ty
  body ++ leU32 (crc32 body)

/-- `deserializedIndex`: parses one record buffer, verifying the trailing CRC-32 over
`data[:len(data)-4]`; the `mvcc` field is not stored and comes back as the zero value. -/
def deserializedIndex (bs : List Byte) : Option (Nat × Inode) :=
  let inum := deLE (sub bs 0 8)
  let rid := toI64 (deLE (sub bs 8 8))
  let pos := toI64 (deLE (sub bs 16 8))
  let len := toI32 (deLE (sub bs 24 4))
  let eat := toI64 (deLE (sub bs 28 8))
  let cat := toI64 (deLE (sub bs 36 8))
  let ty := toI8 (deLE (sub bs 44 1))
  let checksum := deLE (sub bs 45 4)
  if checksum = crc32 (bs.take (bs.length - 4)) then
    some (inum, { RegionID := rid, Position := pos, ExpiredAt := eat, CreatedAt := cat,
                  mvcc := 0, Length := len, Ty := ty })
  else none

/-! ## The store state and foreground operations (`vfs/lfs.go`) -/

/-- The four magic bytes `dataFileMetadata = {0xDB, 0x00, 0x01, 0x01}`. -/
def dataFileMetadata : List Byte := [0xDB, 0x00, 0x01, 0x01]

/-- In-memory store state relevant to the verified operations: the index, the active
region's id, the append offset inside it, and the rollover threshold.  File handles,
directory paths and locks carry no functional content in the single-step semantics
and are omitted. -/
structure LfsState where
  index : Index
  offset : Int
  regionID : Int
  regionThreshold : Int
deriving DecidableEq

/-- `createActiveRegion`: bump the region id, write the 4-byte magic into the fresh
file, and restart the append offset after the magic. -/
def createActiveRegion (lfs : LfsState) : LfsState :=
  { lfs with regionID := lfs.regionID + 1, offset := (dataFileMetadata.length : Int) }

/-- `PutSegment`: append the serialized segment to the active region, install a fresh
inode (mvcc 0) pointing at the append position, advance the offset by the segment
size, and roll the region over when the offset reaches the threshold.  The append
itself is modelled as always succeeding (pure in-memory semantics). -/
def PutSegment (lfs : LfsState) (inum : Nat) (seg : Segment) : LfsState :=
  let ind : Inode :=
    { RegionID := lfs.regionID, Position := lfs.offset, Length := seg.Size,
      CreatedAt := seg.CreatedAt, ExpiredAt := seg.ExpiredAt, mvcc := 0, Ty := seg.Ty }
  let lfs' := { lfs with index := idxInsert lfs.index inum ind,
                         offset := lfs.offset + seg.Size }
  if lfs'.offset ≥ lfs.regionThreshold then createActiveRegion lfs' else lfs'

/-- `HasSegment`: under the shard read lock, the key is reported present exactly when
an inode exists and `time.Now().UnixMicro() < inode.ExpiredAt`. -/
def HasSegment (lfs : LfsState) (inum : Nat) (now : Int) : Bool :=
  match idxLookup lfs.index inum with
  | none => false
  | some ind => now < ind.ExpiredAt

/-- `(*Segment).ExpiresIn` second component: `true` unless `ExpiredAt > 0`,
`ExpiredAt > now` and `(ExpiredAt - now) / int64(time.Second) == 0`.  Timestamps are
in microseconds while `int64(time.Second)` is 1e9 nanoseconds, so the whole-seconds
quotient is the microsecond difference divided by 1e9, exactly as in the source. -/
def ExpiresInOk (s : Segment) (now : Int) : Bool :=
  if s.ExpiredAt > 0 ∧ s.ExpiredAt > now then
    decide (0 < (s.ExpiredAt - now) / 1000000000)
  else true

/-- Result of `UpdateSegmentWithCAS`, one constructor per `return` site. -/
inductive CasRes
  | ok
  | errExpired
  | errNotFound
  | errConflict
  | errOverflow
deriving DecidableEq

/-- `UpdateSegmentWithCAS`: reject segments failing the `ExpiresIn` gate, look the
inode up, fail fast on an mvcc mismatch, otherwise append the new segment, store the
new metadata fields into the inode in place, and only then check for mvcc overflow:
at `math.MaxUint64` the error return leaves the fields updated but the mvcc and the
global offset untouched; otherwise the mvcc is incremented and the offset advanced. -/
def UpdateSegmentWithCAS (lfs : LfsState) (inum expected : Nat) (newseg : Segment)
    (now : Int) : LfsState × CasRes :=
  if ExpiresInOk newseg now = false then (lfs, .errExpired) else
  match idxLookup lfs.index inum with
  | none => (lfs, .errNotFound)
  | some ind =>
    if ind.mvcc ≠ expected then (lfs, .errConflict) else
    let ind' := { ind with CreatedAt := newseg.CreatedAt, ExpiredAt := newseg.ExpiredAt,
                           RegionID := lfs.regionID, Length := newseg.Size,
                           Position := lfs.offset }
    if ind.mvcc = 2 ^ 64 - 1 then
      ({ lfs with index := idxInsert lfs.index inum ind' }, .errOverflow)
    else
      ({ lfs with index := idxInsert lfs.index inum { ind' with mvcc := ind.mvcc + 1 },
                  offset := lfs.offset + newseg.Size }, .ok)

/-! ## Startup recovery (`recoveryIndex`, `crashRecoveryAllIndex`,
`scanAndRecoverCheckpoint`) -/

/-- Result of a recovery pass over files: the rebuilt index, a returned error, a
panic, or fuel exhaustion (the Go loops are while-loops; fuel makes them total). -/
inductive RecovRes
  | ok (idx : Index)
  | failed
  | panicked
  | outOfFuel
deriving DecidableEq

/-- `recoveryIndex`: stream the fixed-size records of a snapshot or checkpoint file
from the post-magic offset, CRC-verifying each via `deserializedIndex`, skipping
records with `ExpiredAt > 0 && ExpiredAt <= now`, inserting the rest.  The Go
producer/consumer goroutine pair is sequentialised; it reads buffers of exactly
`_INDEX_SEGMENT_SIZE` bytes and stops with an error on a short read. -/
def recoveryIndexLoop (now : Int) (file : List Byte) :
    Nat → Index → Nat → RecovRes
  | 0, _, _ => .outOfFuel
  | fuel + 1, idx, offset =>
    if offset < file.length then
      if offset + _INDEX_SEGMENT_SIZE > file.length then .failed else
      match deserializedIndex (sub file offset _INDEX_SEGMENT_SIZE) with
      | none => .failed
      | some (inum, ind) =>
        if ind.ExpiredAt > 0 ∧ ind.ExpiredAt ≤ now then
          recoveryIndexLoop now file fuel idx (offset + _INDEX_SEGMENT_SIZE)
        else
          recoveryIndexLoop now file fuel (idxInsert idx inum ind)
            (offset + _INDEX_SEGMENT_SIZE)
    else .ok idx

/-- One region pass of `crashRecoveryAllIndex`: scan segments from the post-magic
offset; a tombstone deletes its inum; a segment with `ExpiredAt > 0 && <= now` is
skipped; any other segment is (re)inserted with mvcc 0 — the source's inode literal
omits the `Type` field, so it lands as the zero value. -/
def crashRecoveryScan (hash : List Byte → Nat) (tdecode : List Byte → Option (List Byte))
    (now : Int) (regionId : Int) (file : List Byte) :
    Nat → Index → Nat → RecovRes
  | 0, _, _ => .outOfFuel
  | fuel + 1, idx, offset =>
    if offset < file.length then
      match readSegment hash tdecode file offset with
      | .err => .failed
      | .panics => .panicked
      | .ok inum seg =>
        if seg.IsTombstone then
          crashRecoveryScan hash tdecode now regionId file fuel (idxErase idx inum)
            (offset + seg.Size.toNat)
        else if seg.ExpiredAt > 0 ∧ seg.ExpiredAt ≤ now then
          crashRecoveryScan hash tdecode now regionId file fuel idx (offset + seg.Size.toNat)
        else
          crashRecoveryScan hash tdecode now regionId file fuel
            (idxInsert idx inum
              { RegionID := regionId, Position := (offset : Int), Length := seg.Size,
                CreatedAt := seg.CreatedAt, ExpiredAt := seg.ExpiredAt, mvcc := 0, Ty := 0 })
            (offset + seg.Size.toNat)
    else .ok idx

/-- `crashRecoveryAllIndex`: fold the per-region scan over the region files in
ascending id order (the source sorts the ids first; the list argument is that
sorted enumeration). -/
def crashRecoveryAllIndex (hash : List Byte → Nat)
    (tdecode : List Byte → Option (List Byte)) (now : Int) (fuel : Nat) :
    List (Int × List Byte) → Index → RecovRes
  | [], idx => .ok idx
  | (rid, file) :: rest, idx =>
    match crashRecoveryScan hash tdecode now rid file fuel idx
        dataFileMetadata.length with
    | .ok idx' => crashRecoveryAllIndex hash tdecode now fuel rest idx'
    | e => e

/-- One region pass of the forward scan in `scanAndRecoverCheckpoint`: identical to
the crash-recovery pass except for the expiry guard, which skips segments with
`ExpiredAt <= now && ExpiredAt != 0`. -/
def checkpointForwardScan (hash : List Byte → Nat)
    (tdecode : List Byte → Option (List Byte)) (now : Int) (regionId : Int)
    (file : List Byte) : Nat → Index → Nat → RecovRes
  | 0, _, _ => .outOfFuel
  | fuel + 1, idx, offset =>
    if offset < file.length then
      match readSegment hash tdecode file offset with
      | .err => .failed
      | .panics => .panicked
      | .ok inum seg =>
        if seg.IsTombstone then
          checkpointForwardScan hash tdecode now regionId file fuel (idxErase idx inum)
            (offset + seg.Size.toNat)
        else if seg.ExpiredAt ≤ now ∧ seg.ExpiredAt ≠ 0 then
          checkpointForwardScan hash tdecode now regionId file fuel idx
            (offset + seg.Size.toNat)
        else
          checkpointForwardScan hash tdecode now regionId file fuel
            (idxInsert idx inum
              { RegionID := regionId, Position := (offset : Int), Length := seg.Size,
                CreatedAt := seg.CreatedAt, ExpiredAt := seg.ExpiredAt, mvcc := 0, Ty := 0 })
            (offset + seg.Size.toNat)
    else .ok idx

/-- Forward scan over the regions with `id >= pid` in ascending order. -/
def checkpointScanRegions (hash : List Byte → Nat)
    (tdecode : List Byte → Option (List Byte)) (now : Int) (pid : Int) (fuel : Nat) :
    List (Int × List Byte) → Index → RecovRes
  | [], idx => .ok idx
  | (rid, file) :: rest, idx =>
    if rid ≥ pid then
      match checkpointForwardScan hash tdecode now rid file fuel idx
          dataFileMetadata.length with
      | .ok idx' => checkpointScanRegions hash tdecode now pid fuel rest idx'
      | e => e
    else checkpointScanRegions hash tdecode now pid fuel rest idx

/-- `scanAndRecoverCheckpoint`: rebuild the index from the newest checkpoint file
(here: the already-selected file and its embedded region id `pid`), then forward-scan
the data files with `region_id >= pid`. -/
def scanAndRecoverCheckpoint (hash : List Byte → Nat)
    (tdecode : List Byte → Option (List Byte)) (now : Int) (ckptFile : List Byte)
    (pid : Int) (regions : List (Int × List Byte)) (fuel : Nat) : RecovRes :=
  match recoveryIndexLoop now ckptFile fuel [] dataFileMetadata.length with
  | .ok idx => checkpointScanRegions hash tdecode now pid fuel regions idx
  | e => e

/-! ## Compaction (`cleanupDirtyRegions`) -/

/-- `isValid`: a scanned segment is still current when it is not a tombstone, its
creation stamp matches the inode's, and it is immortal or not yet expired. -/
def isValid (seg : Segment) (ind : Inode) (now : Int) : Bool :=
  !seg.IsTombstone && seg.CreatedAt == ind.CreatedAt &&
    (seg.ExpiredAt == ImmortalTTL || now < seg.ExpiredAt)

/-- Result of the per-region compaction scan. -/
inductive GcScan
  | done (lfs : LfsState)
  | failed
  | panicked
  | outOfFuel
deriving DecidableEq

/-- The inner loop of `cleanupDirtyRegions` over one dirty region: while
`readOffset < size`, read the segment; when its inum is absent from the index the
source executes `continue` WITHOUT advancing `readOffset`; when present and valid,
the segment is re-appended to the active region, the inode is relocated, the offset
advanced and the rollover threshold checked; when present but stale, the offset is
advanced and the threshold check is skipped (`continue`).  The region-file set
bookkeeping (`delete(lfs.regions, ...)`, file removal) has no effect on the scan
state and is omitted. -/
def cleanupDirtyRegion (hash : List Byte → Nat)
    (tdecode : List Byte → Option (List Byte)) (now : Int) (file : List Byte) :
    Nat → LfsState → Nat → GcScan
  | 0, _, _ => .outOfFuel
  | fuel + 1, lfs, readOffset =>
    if readOffset < file.length then
      match readSegment hash tdecode file readOffset with
      | .err => .failed
      | .panics => .panicked
      | .ok inum seg =>
        match idxLookup lfs.index inum with
        | none => cleanupDirtyRegion hash tdecode now file fuel lfs readOffset
        | some ind =>
          if isValid seg ind now then
            let ind' := { ind with Position := lfs.offset, RegionID := lfs.regionID }
            let lfs' := { lfs with index := idxInsert lfs.index inum ind',
                                   offset := lfs.offset + seg.Size }
            let lfs'' := if lfs'.offset ≥ lfs'.regionThreshold then
                           createActiveRegion lfs' else lfs'
            cleanupDirtyRegion hash tdecode now file fuel lfs'' (readOffset + seg.Size.toNat)
          else
            cleanupDirtyRegion hash tdecode now file fuel lfs (readOffset + seg.Size.toNat)
    else .done lfs

/-! ## The value pipeline (`vfs/pipeline.go`): AES-CBC with PKCS#7 padding and
snappy-class compression over the value payload -/

/-- PKCS#7 padding to the 16-byte AES block size, exactly as in `Cryptor.Encrypt`:
`padding := blockSize - len % blockSize` (always in 1..16) and that many copies of
the padding byte are appended. -/
def pkcs7pad (b : List Byte) : List Byte :=
  let p := 16 - b.length % 16
  b ++ List.replicate p p

/-- Byte-wise xor of two equal-length buffers (the CBC chaining step). -/
def xorBytes (a b : List Byte) : List Byte := List.zipWith (· ^^^ ·) a b

/-- CBC encryption over a list of 16-byte blocks with block cipher `E`:
`c_i = E(p_i xor c_(i-1))`, `c_0` being the IV. -/
def cbcEnc (E : List Byte → List Byte) : List Byte → List (List Byte) → List (List Byte)
  | _, [] => []
  | prev, c :: cs =>
      let e := E (xorBytes prev c)
      e :: cbcEnc E e cs

/-- CBC decryption with block cipher inverse `D`: `p_i = D(c_i) xor c_(i-1)`. -/
def cbcDec (D : List Byte → List Byte) : List Byte → List (List Byte) → List (List Byte)
  | _, [] => []
  | prev, c :: cs => xorBytes prev (D c) :: cbcDec D c cs

/-- Split a buffer into 16-byte blocks (fuel-structural so the kernel can evaluate). -/
def chunksAux : Nat → List Byte → List (List Byte)
  | 0, _ => []
  | _ + 1, [] => []
  | f + 1, b => b.take 16 :: chunksAux f (b.drop 16)

def chunks16 (b : List Byte) : List (List Byte) := chunksAux b.length b

/-- `Cryptor.Encrypt`: pad the plaintext, CBC-encrypt it under a fresh IV, return
`IV || ciphertext`.  The AES key schedule `aes.NewCipher(secret)` is abstracted into
the block-permutation parameter `E`; the random IV is a parameter. -/
def CryptorEncrypt (E : List Byte → List Byte) (iv plaintext : List Byte) : List Byte :=
  let padded := pkcs7pad plaintext
  iv ++ (cbcEnc E iv (chunks16 padded)).flatten

/-- Outcome of a pipeline stage: bytes, a returned Go error, or a Go runtime panic. -/
inductive PipeOut
  | ok (bs : List Byte)
  | errOut
  | panicked
deriving DecidableEq

/-- `Cryptor.Decrypt`: split off the IV with `ciphertext[:16]` (panics when the
buffer is shorter than one block), CBC-decrypt the rest (`CryptBlocks` panics when
it is not a whole number of blocks), then strip PKCS#7 padding by reading the last
plaintext byte (`plaintext[len-1]` panics on an empty plaintext, and the slice
`plaintext[:len-padding]` panics when the padding byte exceeds the length).  `D` is
the inverse AES block permutation for the same secret. -/
def CryptorDecrypt (D : List Byte → List Byte) (ciphertext : List Byte) : PipeOut :=
  if ciphertext.length < 16 then .panicked else
  let iv := ciphertext.take 16
  let ct := ciphertext.drop 16
  if ct.length % 16 ≠ 0 then .panicked else
  let pt := (cbcDec D iv (chunks16 ct)).flatten
  if pt.length = 0 then .panicked else
  let padding := pt.getD (pt.length - 1) 0
  if pt.length < padding then .panicked else
  .ok (pt.take (pt.length - padding))

/-- The `Pipeline` (the process-wide `transformer` is one of these): the bit-flag
word, the optional encryptor — abstracted into the per-secret AES block permutation
and its inverse — and the optional compressor (compress is total, as for snappy;
decompress may fail). -/
structure Pipeline where
  flags : Nat
  encryptor : Option ((List Byte → List Byte) × (List Byte → List Byte))
  compressor : Option ((List Byte → List Byte) × (List Byte → Option (List Byte)))

def EnabledEncryption : Nat := 1
def EnabledCompression : Nat := 2

def Pipeline.IsEncryptionEnabled (p : Pipeline) : Bool :=
  p.flags &&& EnabledEncryption != 0

def Pipeline.IsCompressionEnabled (p : Pipeline) : Bool :=
  p.flags &&& EnabledCompression != 0

/-- `Pipeline.Encode`: compress when enabled and configured, then encrypt when
enabled and configured (IV passed in for the `crypto/rand` draw). -/
def Pipeline.Encode (p : Pipeline) (iv data : List Byte) : List Byte :=
  let d1 := match p.IsCompressionEnabled, p.compressor with
    | true, some c => c.1 data
    | _, _ => data
  match p.IsEncryptionEnabled, p.encryptor with
  | true, some e => CryptorEncrypt e.1 iv d1
  | _, _ => d1

/-- `Pipeline.Decode`: decrypt when enabled and configured, then decompress when
enabled and configured; stage failures surface as pipeline errors, Go runtime
panics as `panicked`. -/
def Pipeline.Decode (p : Pipeline) (data : List Byte) : PipeOut :=
  let step1 : PipeOut := match p.IsEncryptionEnabled, p.encryptor with
    | true, some e => CryptorDecrypt e.2 data
    | _, _ => .ok data
  match step1 with
  | .ok d1 =>
    match p.IsCompressionEnabled, p.compressor with
    | true, some c =>
      match c.2 d1 with
      | some d2 => .ok d2
      | none => .errOut
    | _, _ => .ok d1
  | e => e

/-- Modelled from the dependency golang/snappy (the block format the spec calls a
"Snappy-compatible block codec"): the body of a compressed blob is a sequence of
elements; an element whose tag byte has low bits 00 and `tag/4 < 60` is a literal
of `tag/4 + 1` bytes.  Copy elements and wide literal headers are not needed for the
blobs appearing in this file and are mapped to a decode error in this partial model. -/
def snappyBody : Nat → List Byte → Option (List Byte)
  | _, [] => some []
  | 0, _ => none
  | f + 1, tag :: rest =>
    if tag % 4 = 0 ∧ tag / 4 < 60 then
      let n := tag / 4 + 1
      if rest.length < n then none else
      match snappyBody f (rest.drop n) with
      | some tail => some (rest.take n ++ tail)
      | none => none
    else none

/-- Modelled from the dependency golang/snappy: `snappy.Decode` reads the uvarint
uncompressed length (single-byte form suffices here) and decodes the body, checking
the declared length. -/
def snappyDecode (bs : List Byte) : Option (List Byte) :=
  match bs with
  | [] => none
  | l :: rest =>
    if l < 128 then
      match snappyBody rest.length rest with
      | some out => if out.length = l then some out else none
      | none => none
    else none

/-- The process-wide `transformer` applied to a value payload, as a plain function
into `Option`: `vfs.NewTransformer` itself is not under `src/`; per the spec the
transformer is the pipeline of section 4.2, so its `Decode` is `Pipeline.Decode`
with returned errors and panics both collapsing to `none` for callers that only
propagate failure. -/
def transformerDecode (p : Pipeline) (v : List Byte) : Option (List Byte) :=
  match p.Decode v with
  | .ok o => some o
  | _ => none

/-! ## Tables (`types/table.go`) and their msgpack round trip (`Segment.ToTable`) -/

/-- Scalar cell values appearing in table rows (`map[string]any` leaves). -/
inductive Val
  | vb (b : Bool)
  | vi (n : Int)
  | vs (s : String)
deriving DecidableEq

/-- `types.Table`: the rows map `Table map[uint32]map[string]any` (as an association
list) and the `NextID uint32` insertion counter. -/
structure Table where
  table : List (Nat × List (String × Val))
  nextID : Nat
deriving DecidableEq

/-- `(*Table).ToBytes` is `msgpack.Marshal(&tab.Table)`: ONLY the rows map is
marshalled; `NextID` is not written.  `msgpack.Marshal` is injective on maps, so the
encoded message is represented by the rows map itself rather than by its byte
syntax. -/
def Table.ToBytes (t : Table) : List (Nat × List (String × Val)) := t.table

/-- Modelled from the dependency vmihailenco/msgpack v5, which the current
`Segment.ToTable` calls as `msgpack.Unmarshal(decodedData, table)` with `table` a
whole `*types.Table` STRUCT: decoding a msgpack map into a struct matches keys
against field names, so every key must decode as a string; `ToBytes` encoded the
rows map with `uint32` keys, and the first integer key fails the struct decode with
a type error.  An empty map decodes successfully, leaving every field at the zero
value of the freshly acquired (cleared) table. -/
def msgpackUnmarshalTableStruct (data : List (Nat × List (String × Val))) :
    Option Table :=
  match data with
  | [] => some { table := [], nextID := 0 }
  | _ :: _ => none

/-- `Segment.ToTable` after the kind check and the transformer decode: unmarshal the
payload into a fresh pooled `types.Table` struct. -/
def SegmentToTable (data : List (Nat × List (String × Val))) : Option Table :=
  msgpackUnmarshalTableStruct data

/-! ## Helper lemmas for byte-layout reasoning -/

lemma drop_append_len {l₁ l₂ : List Byte} {n : Nat} (m : Nat) (h : l₁.length = n) :
    (l₁ ++ l₂).drop (n + m) = l₂.drop m := by
  subst h; rw [List.drop_append]

/-! ## Concrete demonstration inputs -/

/-- A tombstone segment for the one-byte key `k` (byte 107), as built by
`NewTombstoneSegment` (kind `unknown`, `ExpiredAt` 0). -/
def c4seg : Segment :=
  { Tombstone := 1, Ty := kindUnknown, ExpiredAt := 0, CreatedAt := 77,
    KeySize := 1, ValueSize := 0, Key := [107], Value := [] }

/-- A dirty region file holding the magic and the single tombstone segment. -/
def c4file : List Byte := dataFileMetadata ++ serializedSegment c4seg

/-- A store state whose index does not contain the tombstone's key. -/
def c4lfs : LfsState :=
  { index := [], offset := 100, regionID := 9, regionThreshold := 1073741824 }

/-- An immortal live segment (`ttl = 0`, hence `ExpiredAt = ImmortalTTL = -1`) for
the one-byte key `k`, value byte 9, kind `table`. -/
def c1seg : Segment :=
  { Tombstone := 0, Ty := kindTable, ExpiredAt := ImmortalTTL, CreatedAt := 7,
    KeySize := 1, ValueSize := 1, Key := [107], Value := [9] }

/-- A region file (id 1) holding the magic and the single immortal segment. -/
def c1file : List Byte := dataFileMetadata ++ serializedSegment c1seg

/-- The inode the full crash scan builds for `c1seg` (the source's inode literal
omits `Type`, so it is the zero value). -/
def c1inode : Inode :=
  { RegionID := 1, Position := 4, ExpiredAt := ImmortalTTL, CreatedAt := 7,
    mvcc := 0, Length := 32, Ty := 0 }

/-- An immortal inode as installed by a `PutSegment` with ttl 0. -/
def c3inode : Inode :=
  { RegionID := 1, Position := 4, ExpiredAt := ImmortalTTL, CreatedAt := 7,
    mvcc := 0, Length := 32, Ty := kindTable }

/-- A store whose index holds the immortal inode under inum 5. -/
def c3lfs : LfsState :=
  { index := [(5, c3inode)], offset := 36, regionID := 1, regionThreshold := 1073741824 }

/-- An immortal replacement segment for CAS updates. -/
def c2seg : Segment :=
  { Tombstone := 0, Ty := kindTable, ExpiredAt := ImmortalTTL, CreatedAt := 9,
    KeySize := 1, ValueSize := 1, Key := [107], Value := [9] }

/-- The `c3lfs` store with the inode's mvcc saturated at `math.MaxUint64`. -/
def c2maxInode : Inode := { c3inode with mvcc := 2 ^ 64 - 1 }

def c2maxLfs : LfsState := { c3lfs with index := [(5, c2maxInode)] }

/-- The inode of the index-record test vector from the repository's own test
(`TestSerializedIndex`). -/
def c9inode : Inode :=
  { RegionID := 1234, Position := 5678, ExpiredAt := 1617181723,
    CreatedAt := 1617181623, mvcc := 0, Length := 100, Ty := 0 }

/-- Modelled from the dependency golang/snappy: `emitLiteral` for a short
(1..60 byte) incompressible input produces the uvarint length, the literal tag
`(len-1)*4`, and the raw bytes. -/
def snappyEncodeLit (bs : List Byte) : List Byte :=
  bs.length :: (bs.length - 1) * 4 :: bs

/-- A pipeline with compression enabled and the snappy codec installed
(`SetCompressor(SnappyCompressor)`). -/
def c5pipe : Pipeline :=
  { flags := EnabledCompression, encryptor := none,
    compressor := some (snappyEncodeLit, snappyDecode) }

/-- A stored segment whose value payload is the snappy encoding of the two bytes
`a b` (so the bytes on disk are `[2, 4, 97, 98]`). -/
def c5seg : Segment :=
  { Tombstone := 0, Ty := kindTable, ExpiredAt := ImmortalTTL, CreatedAt := 7,
    KeySize := 1, ValueSize := 4, Key := [107], Value := snappyEncodeLit [97, 98] }

def c5file : List Byte := dataFileMetadata ++ serializedSegment c5seg

/-- A pipeline with encryption enabled; the identity block permutation stands in for
the AES cipher of one particular accepted secret. -/
def c7pipe : Pipeline :=
  { flags := EnabledEncryption, encryptor := some (fun x => x, fun x => x),
    compressor := none }

/-- The S1 table of the spec: rows 1..3 and `next_id = 4`. -/
def s1table : Table :=
  { table := [(1, [("active", Val.vb true), ("age", Val.vi 25), ("name", Val.vs "Alice")]),
              (2, [("active", Val.vb false), ("age", Val.vi 30), ("name", Val.vs "Bob")]),
              (3, [])],
    nextID := 4 }

/-! ## C3 — `has(key)` on entries with no expiry -/

/-- C3: the claim says an index entry with no expiry (`expired_at` equal to the
immortal sentinel -1, or 0) makes `has(key)` return true.  `HasSegment` tests
`now < inode.ExpiredAt` without the positivity guard used everywhere else, so for
`ExpiredAt = -1` and for `ExpiredAt = 0` it returns FALSE at any non-negative clock:
the code contradicts the claim (and its own `FetchSegment`, which serves such
entries). -/
theorem C3_has_immortal_returns_false :
    idxLookup c3lfs.index 5 = some c3inode ∧
    c3inode.ExpiredAt = ImmortalTTL ∧
    HasSegment c3lfs 5 1000 = false ∧
    HasSegment { c3lfs with index := [(5, { c3inode with ExpiredAt := 0 })] } 5 1000 = false := by
  decide

/-! ## C4 — compaction scan over a segment whose inum left the index -/

/-- C4: the claim says the compaction pass terminates and advances past a segment
whose inum is no longer in the index.  In `cleanupDirtyRegions` the absent-inum
branch executes `continue` without advancing `readOffset`, so the scan re-reads the
same segment forever: for every fuel bound the loop is still running.  The region
`c4file` holds a single well-formed tombstone segment and the index is empty. -/
theorem C4_cleanup_scan_never_terminates :
    ∀ (hash : List Byte → Nat) (fuel : Nat),
      cleanupDirtyRegion hash (fun v => some v) 1000 c4file fuel c4lfs 4 = .outOfFuel := by
  intro hash fuel
  induction fuel with
  | zero => rfl
  | succ f ih => exact ih

/-! ## C1 — the three recovery strategies disagree on immortal entries -/

/-- C1: the claim says snapshot recovery, checkpoint-plus-forward-scan and the full
scan rebuild identical live sets, in particular for entries with no expiry
(`expired_at = -1`).  The forward scan after a checkpoint skips every segment with
`ExpiredAt <= now && ExpiredAt != 0` — which is TRUE for the immortal sentinel -1 —
while the full crash scan (guard `ExpiredAt > 0 && <= now`) keeps it.  Starting from
an empty checkpoint (magic only, region id 1) over the single-region store
`[(1, c1file)]`, strategy (b) recovers an empty index and strategy (c) recovers the
key: the rebuilt sets differ. -/
theorem C1_checkpoint_scan_drops_immortal_entries :
    ∀ hash : List Byte → Nat,
      scanAndRecoverCheckpoint hash (fun v => some v) 1000 dataFileMetadata 1
          [(1, c1file)] 4 = .ok [] ∧
      crashRecoveryAllIndex hash (fun v => some v) 1000 4 [(1, c1file)] [] =
          .ok [(hash [107], c1inode)] := by
  intro hash
  exact ⟨rfl, rfl⟩

/-! ## C5 — `readSegment` transforms the value payload -/

/-- C5: the claim says the value bytes returned by the segment decoder are
byte-for-byte the value bytes read from the file, still pipeline-encoded, decoding
being the caller's responsibility.  `readSegment` however runs `transformer.Decode`
on the value buffer before returning: with compression configured, the stored value
bytes `[2, 4, 97, 98]` (a snappy blob) come back as the decompressed `[97, 98]` —
and the caller (`Segment.ToTable`) then decodes AGAIN. -/
theorem C5_readSegment_decodes_value :
    ∀ hash : List Byte → Nat,
      readSegment hash (transformerDecode c5pipe) c5file 4 =
        .ok (hash [107])
          { Tombstone := 0, Ty := kindTable, ExpiredAt := ImmortalTTL, CreatedAt := 7,
            KeySize := 1, ValueSize := 4, Key := [107], Value := [97, 98] } ∧
      sub c5file 31 4 = [2, 4, 97, 98] ∧
      ([97, 98] : List Byte) ≠ [2, 4, 97, 98] := by
  intro hash
  exact ⟨rfl, by decide, by decide⟩

/-! ## C7 — decryption of malformed buffers crashes instead of erroring -/

/-- C7: the claim says every malformed ciphertext — shorter than one block, a ragged
length, or an oversized padding byte — surfaces as a pipeline error value.
`Cryptor.Decrypt` instead slices `ciphertext[:16]` unchecked, feeds `CryptBlocks`
unchecked, and indexes `plaintext[len-1]` and `plaintext[:len-padding]` unchecked,
so all three inputs panic the process. -/
theorem C7_decrypt_crashes_on_malformed_input :
    Pipeline.Decode c7pipe [] = .panicked ∧
    Pipeline.Decode c7pipe (List.replicate 17 0) = .panicked ∧
    Pipeline.Decode c7pipe (List.replicate 31 0 ++ [255]) = .panicked := by
  decide

/-! ## C8 — the table round trip loses `next_id` (and the rows) -/

/-- C8: the claim says a table with rows 1..3 and `next_id = 4` survives the
segment round trip.  `Table.ToBytes` marshals only the rows map, so the encodings of
the S1 table and of the same table with `next_id = 0` coincide — `next_id` cannot be
recovered by any decoder — and the current `Segment.ToTable` unmarshals that rows-map
message into a whole `types.Table` struct, which fails on the integer map keys. -/
theorem C8_table_roundtrip_loses_nextID :
    Table.ToBytes s1table = Table.ToBytes { s1table with nextID := 0 } ∧
    ({ s1table with nextID := 0 } : Table) ≠ s1table ∧
    SegmentToTable (Table.ToBytes s1table) = none := by
  refine ⟨rfl, by decide, rfl⟩

/-! ## C9 — the index record is 49 bytes, not 48 -/

/-- C9 counterexample: the claim says every snapshot record is exactly 48 bytes; on
the repository's own test vector the record is 49 bytes long. -/
theorem C9_record_length_counterexample :
    (serializedIndex 1001 c9inode).length = 49 ∧ (49 : Nat) ≠ 48 := by
  constructor
  · simp [serializedIndex, leU64_length, leI64_length, leI32_length, leI8_length,
      leU32_length]
  · decide

/-- Layout of a record made of seven fixed-width fields (8, 8, 8, 4, 8, 8, 1 bytes)
followed by a trailer: each field sits at its cumulative offset, the trailer starts
at byte 45, and the first 45 bytes are exactly the fields. -/
lemma layout7 (A B C D E F G K : List Byte)
    (hA : A.length = 8) (hB : B.length = 8) (hC : C.length = 8) (hD : D.length = 4)
    (hE : E.length = 8) (hF : F.length = 8) (hG : G.length = 1) :
    sub ((A ++ (B ++ (C ++ (D ++ (E ++ (F ++ G)))))) ++ K) 0 8 = A ∧
    sub ((A ++ (B ++ (C ++ (D ++ (E ++ (F ++ G)))))) ++ K) 8 8 = B ∧
    sub ((A ++ (B ++ (C ++ (D ++ (E ++ (F ++ G)))))) ++ K) 16 8 = C ∧
    sub ((A ++ (B ++ (C ++ (D ++ (E ++ (F ++ G)))))) ++ K) 24 4 = D ∧
    sub ((A ++ (B ++ (C ++ (D ++ (E ++ (F ++ G)))))) ++ K) 28 8 = E ∧
    sub ((A ++ (B ++ (C ++ (D ++ (E ++ (F ++ G)))))) ++ K) 36 8 = F ∧
    sub ((A ++ (B ++ (C ++ (D ++ (E ++ (F ++ G)))))) ++ K) 44 1 = G ∧
    ((A ++ (B ++ (C ++ (D ++ (E ++ (F ++ G)))))) ++ K).drop 45 = K ∧
    ((A ++ (B ++ (C ++ (D ++ (E ++ (F ++ G)))))) ++ K).take 45 =
      A ++ (B ++ (C ++ (D ++ (E ++ (F ++ G))))) := by
  have hbody : (A ++ (B ++ (C ++ (D ++ (E ++ (F ++ G)))))).length = 45 := by
    simp [hA, hB, hC, hD, hE, hF, hG]
  have hflat : (A ++ (B ++ (C ++ (D ++ (E ++ (F ++ G)))))) ++ K =
      A ++ (B ++ (C ++ (D ++ (E ++ (F ++ (G ++ K)))))) := by
    simp [List.append_assoc]
  have d8 : ((A ++ (B ++ (C ++ (D ++ (E ++ (F ++ G)))))) ++ K).drop 8 =
      B ++ (C ++ (D ++ (E ++ (F ++ (G ++ K))))) := by
    rw [hflat]; exact List.drop_left' hA
  have d16 : ((A ++ (B ++ (C ++ (D ++ (E ++ (F ++ G)))))) ++ K).drop 16 =
      C ++ (D ++ (E ++ (F ++ (G ++ K)))) := by
    rw [show (16 : Nat) = 8 + 8 from rfl, ← List.drop_drop, d8]
    exact List.drop_left' hB
  have d24 : ((A ++ (B ++ (C ++ (D ++ (E ++ (F ++ G)))))) ++ K).drop 24 =
      D ++ (E ++ (F ++ (G ++ K))) := by
    rw [show (24 : Nat) = 16 + 8 from rfl, ← List.drop_drop, d16]
    exact List.drop_left' hC
  have d28 : ((A ++ (B ++ (C ++ (D ++ (E ++ (F ++ G)))))) ++ K).drop 28 =
      E ++ (F ++ (G ++ K)) := by
    rw [show (28 : Nat) = 24 + 4 from rfl, ← List.drop_drop, d24]
    exact List.drop_left' hD
  have d36 : ((A ++ (B ++ (C ++ (D ++ (E ++ (F ++ G)))))) ++ K).drop 36 =
      F ++ (G ++ K) := by
    rw [show (36 : Nat) = 28 + 8 from rfl, ← List.drop_drop, d28]
    exact List.drop_left' hE
  have d44 : ((A ++ (B ++ (C ++ (D ++ (E ++ (F ++ G)))))) ++ K).drop 44 =
      G ++ K := by
    rw [show (44 : Nat) = 36 + 8 from rfl, ← List.drop_drop, d36]
    exact List.drop_left' hF
  have d45 : ((A ++ (B ++ (C ++ (D ++ (E ++ (F ++ G)))))) ++ K).drop 45 = K := by
    rw [show (45 : Nat) = 44 + 1 from rfl, ← List.drop_drop, d44]
    exact List.drop_left' hG
  refine ⟨?_, ?_, ?_, ?_, ?_, ?_, ?_, d45, List.take_left' hbody⟩
  · rw [sub, List.drop_zero, hflat]; exact List.take_left' hA
  · rw [sub, d8]; exact List.take_left' hB
  · rw [sub, d16]; exact List.take_left' hC
  · rw [sub, d24]; exact List.take_left' hD
  · rw [sub, d28]; exact List.take_left' hE
  · rw [sub, d36]; exact List.take_left' hF
  · rw [sub, d44]; exact List.take_left' hG

/-- C9 amended: every index snapshot/checkpoint record is exactly 49 bytes — the
layout `| inum:8 | region_id:8 | position:8 | length:4 | expired_at:8 |
created_at:8 | type:1 | crc32:4 |` of the claim, whose widths sum to 49 — and the
recovery stride `_INDEX_SEGMENT_SIZE` is that same 49, with the trailing CRC-32
covering the 45 preceding bytes of the record. -/
theorem C9_record_layout_amended (inum : Nat) (ind : Inode) :
    (serializedIndex inum ind).length = _INDEX_SEGMENT_SIZE ∧
    _INDEX_SEGMENT_SIZE = 49 ∧
    sub (serializedIndex inum ind) 0 8 = leU64 inum ∧
    sub (serializedIndex inum ind) 8 8 = leI64 ind.RegionID ∧
    sub (serializedIndex inum ind) 16 8 = leI64 ind.Position ∧
    sub (serializedIndex inum ind) 24 4 = leI32 ind.Length ∧
    sub (serializedIndex inum ind) 28 8 = leI64 ind.ExpiredAt ∧
    sub (serializedIndex inum ind) 36 8 = leI64 ind.CreatedAt ∧
    sub (serializedIndex inum ind) 44 1 = leI8 ind.Ty ∧
    (serializedIndex inum ind).drop 45 =
      leU32 (crc32 ((serializedIndex inum ind).take 45)) := by
  have h := layout7 (leU64 inum) (leI64 ind.RegionID) (leI64 ind.Position)
    (leI32 ind.Length) (leI64 ind.ExpiredAt) (leI64 ind.CreatedAt) (leI8 ind.Ty)
    (leU32 (crc32 (leU64 inum ++ (leI64 ind.RegionID ++ (leI64 ind.Position ++
      (leI32 ind.Length ++ (leI64 ind.ExpiredAt ++ (leI64 ind.CreatedAt ++
        leI8 ind.Ty))))))))
    (leU64_length inum) (leI64_length _) (leI64_length _) (leI32_length _)
    (leI64_length _) (leI64_length _) (leI8_length _)
  obtain ⟨h0, h8, h16, h24, h28, h36, h44, h45, htake⟩ := h
  have hdef : serializedIndex inum ind =
      (leU64 inum ++ (leI64 ind.RegionID ++ (leI64 ind.Position ++ (leI32 ind.Length ++
        (leI64 ind.ExpiredAt ++ (leI64 ind.CreatedAt ++ leI8 ind.Ty)))))) ++
      leU32 (crc32 (leU64 inum ++ (leI64 ind.RegionID ++ (leI64 ind.Position ++
        (leI32 ind.Length ++ (leI64 ind.ExpiredAt ++ (leI64 ind.CreatedAt ++
          leI8 ind.Ty))))))) := rfl
  refine ⟨?_, rfl, ?_, ?_, ?_, ?_, ?_, ?_, ?_, ?_⟩
  · rw [hdef]
    simp [_INDEX_SEGMENT_SIZE, leU64_length, leI64_length, leI32_length, leI8_length,
      leU32_length]
  · rw [hdef]; exact h0
  · rw [hdef]; exact h8
  · rw [hdef]; exact h16
  · rw [hdef]; exact h24
  · rw [hdef]; exact h28
  · rw [hdef]; exact h36
  · rw [hdef]; exact h44
  · rw [hdef, htake]
    exact h45

/-! ## C2 — compare-and-swap updates -/

/-- C2 counterexample: the claim says CAS succeeds if and only if the inode's mvcc
equals `expected_mvcc`, for every non-expired new segment.  Two concrete refutations:
with the mvcc saturated at `2^64 - 1` and a matching `expected`, the update fails
(overflow) despite the match; and a segment that is genuinely not expired
(`now = 50 < 100 = expired_at`) is rejected up front because `ExpiresIn` divides the
microsecond remainder by `int64(time.Second)` = 1e9 nanoseconds, so the update fails
despite the matching mvcc 0. -/
theorem C2_cas_iff_counterexample :
    idxLookup c2maxLfs.index 5 = some c2maxInode ∧
    c2maxInode.mvcc = 2 ^ 64 - 1 ∧
    ExpiresInOk c2seg 0 = true ∧
    (UpdateSegmentWithCAS c2maxLfs 5 (2 ^ 64 - 1) c2seg 0).2 = .errOverflow ∧
    (UpdateSegmentWithCAS c2maxLfs 5 (2 ^ 64 - 1) c2seg 0).2 ≠ .ok ∧
    ({ c2seg with ExpiredAt := 100 } : Segment).ExpiredAt > 50 ∧
    idxLookup c3lfs.index 5 = some c3inode ∧
    c3inode.mvcc = 0 ∧
    (UpdateSegmentWithCAS c3lfs 5 0 { c2seg with ExpiredAt := 100 } 50).2 = .errExpired ∧
    (UpdateSegmentWithCAS c3lfs 5 0 { c2seg with ExpiredAt := 100 } 50).2 ≠ .ok := by
  decide

/-- C2 amended: for a key with an existing index entry, a new segment that passes
the code's expiry gate (`ExpiresIn`), and an mvcc below `2^64 - 1`, the CAS update
succeeds if and only if the inode's mvcc equals `expected_mvcc`; on success the
inode's mvcc becomes `expected_mvcc + 1` with the metadata retargeted at the new
append position, and on mismatch it fails with the version-conflict error leaving
the whole store state unchanged. -/
theorem C2_cas_iff_amended (lfs : LfsState) (inum expected : Nat) (newseg : Segment)
    (now : Int) (ind : Inode)
    (hfound : idxLookup lfs.index inum = some ind)
    (hok : ExpiresInOk newseg now = true)
    (hmax : ind.mvcc < 2 ^ 64 - 1) :
    ((UpdateSegmentWithCAS lfs inum expected newseg now).2 = .ok ↔ ind.mvcc = expected) ∧
    (ind.mvcc = expected →
      idxLookup (UpdateSegmentWithCAS lfs inum expected newseg now).1.index inum =
        some { RegionID := lfs.regionID, Position := lfs.offset,
               ExpiredAt := newseg.ExpiredAt, CreatedAt := newseg.CreatedAt,
               mvcc := expected + 1, Length := newseg.Size, Ty := ind.Ty }) ∧
    (ind.mvcc ≠ expected →
      (UpdateSegmentWithCAS lfs inum expected newseg now).2 = .errConflict ∧
      (UpdateSegmentWithCAS lfs inum expected newseg now).1 = lfs) := by
  have hne : ind.mvcc ≠ 18446744073709551615 := by
    have h := Nat.ne_of_lt hmax
    norm_num at h
    exact h
  have hne2 : ind.mvcc ≠ 2 ^ 64 - 1 := Nat.ne_of_lt hmax
  by_cases hm : ind.mvcc = expected
  · subst hm
    refine ⟨?_, fun _ => ?_, fun h => absurd rfl h⟩
    · simp [UpdateSegmentWithCAS, hok, hfound, hne, hne2]
    · simp [UpdateSegmentWithCAS, hok, hfound, hne, hne2, idxLookup_idxInsert_self]
  · refine ⟨?_, fun h => absurd h hm, fun _ => ?_⟩
    · simp [UpdateSegmentWithCAS, hok, hfound, hm]
    · constructor <;> simp [UpdateSegmentWithCAS, hok, hfound, hm]

/-- C2 witness: the amended theorem applied at the concrete immortal store. -/
theorem C2_cas_iff_witness :
    idxLookup c3lfs.index 5 = some c3inode ∧
    ExpiresInOk c2seg 0 = true ∧
    c3inode.mvcc < 2 ^ 64 - 1 ∧
    ((UpdateSegmentWithCAS c3lfs 5 0 c2seg 0).2 = .ok ↔ c3inode.mvcc = 0) :=
  ⟨by decide, by decide, by decide,
    (C2_cas_iff_amended c3lfs 5 0 c2seg 0 c3inode (by decide) (by decide) (by decide)).1⟩

/-! ## C10 — `put` resets the version counter -/

/-- C10: a `PutSegment` on any key — whatever its current entry and mvcc — installs a
fresh inode with mvcc 0 pointing at the append position; consequently a CAS update
against the put state using any previously fetched version `v > 0` fails with the
version-conflict error and changes nothing, so the observed version counter is not
monotone across puts. -/
theorem C10_put_resets_mvcc (lfs : LfsState) (inum : Nat) (seg newseg : Segment)
    (v : Nat) (now : Int)
    (hv : 0 < v)
    (hok : ExpiresInOk newseg now = true) :
    idxLookup (PutSegment lfs inum seg).index inum =
      some { RegionID := lfs.regionID, Position := lfs.offset, ExpiredAt := seg.ExpiredAt,
             CreatedAt := seg.CreatedAt, mvcc := 0, Length := seg.Size, Ty := seg.Ty } ∧
    (UpdateSegmentWithCAS (PutSegment lfs inum seg) inum v newseg now).2 = .errConflict ∧
    (UpdateSegmentWithCAS (PutSegment lfs inum seg) inum v newseg now).1 =
      PutSegment lfs inum seg := by
  have hlook : idxLookup (PutSegment lfs inum seg).index inum =
      some { RegionID := lfs.regionID, Position := lfs.offset, ExpiredAt := seg.ExpiredAt,
             CreatedAt := seg.CreatedAt, mvcc := 0, Length := seg.Size, Ty := seg.Ty } := by
    by_cases h : lfs.offset + seg.Size ≥ lfs.regionThreshold <;>
      simp [PutSegment, createActiveRegion, h, idxLookup_idxInsert_self]
  have hvne : (0 : Nat) ≠ v := Nat.ne_of_lt hv
  refine ⟨hlook, ?_, ?_⟩
  · simp [UpdateSegmentWithCAS, hok, hlook, hvne]
  · simp [UpdateSegmentWithCAS, hok, hlook, hvne]

/-- C10 witness: the theorem applied at the concrete store, with a prior successful
CAS having raised the counter to 1 before the put resets it to 0. -/
theorem C10_put_resets_mvcc_witness :
    (0 : Nat) < 1 ∧
    ExpiresInOk c2seg 0 = true ∧
    (UpdateSegmentWithCAS (PutSegment c3lfs 5 c2seg) 5 1 c2seg 0).2 = .errConflict :=
  ⟨by decide, by decide,
    (C10_put_resets_mvcc c3lfs 5 c2seg c2seg 1 0 (by decide) (by decide)).2.1⟩

/-! ## C6 — pipeline round trip: CBC with PKCS#7 under any block cipher, plus the
compressor contract -/

lemma xorBytes_length (a b : List Byte) :
    (xorBytes a b).length = min a.length b.length := by
  simp [xorBytes, List.length_zipWith]

lemma xorBytes_cancel : ∀ (a b : List Byte), a.length = b.length →
    xorBytes a (xorBytes a b) = b := by
  intro a
  induction a with
  | nil => intro b h; cases b <;> simp_all [xorBytes]
  | cons x xs ih =>
    intro b h
    cases b with
    | nil => simp at h
    | cons y ys =>
      simp only [xorBytes, List.zipWith_cons_cons]
      rw [← Nat.xor_assoc, Nat.xor_self, Nat.zero_xor]
      have := ih ys (by simpa using h)
      simpa [xorBytes] using this

lemma chunksAux_nil (f : Nat) : chunksAux f [] = [] := by
  cases f <;> rfl

lemma chunksAux_flatten : ∀ (f : Nat) (b : List Byte), b.length ≤ f →
    (chunksAux f b).flatten = b := by
  intro f
  induction f with
  | zero =>
    intro b h
    have : b = [] := List.eq_nil_of_length_eq_zero (Nat.le_zero.mp h)
    simp [this, chunksAux]
  | succ f ih =>
    intro b h
    cases b with
    | nil => simp [chunksAux]
    | cons x xs =>
      rw [show chunksAux (f + 1) (x :: xs) =
        (x :: xs).take 16 :: chunksAux f ((x :: xs).drop 16) from rfl]
      rw [List.flatten_cons,
        ih _ (by simp only [List.length_drop, List.length_cons] at h ⊢; omega),
        List.take_append_drop]

lemma chunksAux_all16 : ∀ (f : Nat) (b : List Byte), b.length % 16 = 0 →
    b.length ≤ f → ∀ c ∈ chunksAux f b, c.length = 16 := by
  intro f
  induction f with
  | zero =>
    intro b _ h
    have : b = [] := List.eq_nil_of_length_eq_zero (Nat.le_zero.mp h)
    simp [this, chunksAux]
  | succ f ih =>
    intro b hmod h c hc
    cases b with
    | nil => simp [chunksAux] at hc
    | cons x xs =>
      rw [show chunksAux (f + 1) (x :: xs) =
        (x :: xs).take 16 :: chunksAux f ((x :: xs).drop 16) from rfl] at hc
      simp only [List.length_cons] at hmod h
      have hge : 16 ≤ xs.length + 1 := by omega
      rcases List.mem_cons.mp hc with h1 | h2
      · subst h1; simp [List.length_take]; omega
      · exact ih _
          (by simp only [List.length_drop, List.length_cons]; omega)
          (by simp only [List.length_drop, List.length_cons]; omega) c h2

lemma chunksAux_of_flatten : ∀ (cs : List (List Byte)) (f : Nat),
    (∀ c ∈ cs, c.length = 16) → cs.flatten.length ≤ f →
    chunksAux f cs.flatten = cs := by
  intro cs
  induction cs with
  | nil => intro f _ _; simp [chunksAux_nil]
  | cons c cs ih =>
    intro f hall hf
    have hc : c.length = 16 := hall c (List.mem_cons_self c cs)
    have hlen : (c :: cs).flatten.length = c.length + cs.flatten.length := by
      simp [List.flatten_cons]
    cases f with
    | zero =>
      exfalso
      rw [hlen, hc] at hf
      omega
    | succ f =>
      have hne : (c :: cs).flatten ≠ [] := by
        intro hnil
        have := congrArg List.length hnil
        rw [hlen, hc] at this
        simp at this
      rw [List.flatten_cons]
      cases hflat : c ++ cs.flatten with
      | nil => exact absurd (by rw [List.flatten_cons, hflat]) hne
      | cons y ys =>
        rw [show chunksAux (f + 1) (y :: ys) =
          (y :: ys).take 16 :: chunksAux f ((y :: ys).drop 16) from rfl]
        rw [← hflat, List.take_left' hc, List.drop_left' hc]
        have hrest : cs.flatten.length ≤ f := by
          rw [List.flatten_cons, List.length_append, hc] at hf
          omega
        rw [ih f (fun d hd => hall d (List.mem_cons_of_mem c hd)) hrest]

lemma flatten_length_all16 : ∀ (cs : List (List Byte)),
    (∀ c ∈ cs, c.length = 16) → cs.flatten.length = 16 * cs.length := by
  intro cs
  induction cs with
  | nil => simp
  | cons c cs ih =>
    intro hall
    have hc : c.length = 16 := hall c (List.mem_cons_self c cs)
    rw [List.flatten_cons, List.length_append, hc,
      ih (fun d hd => hall d (List.mem_cons_of_mem c hd))]
    simp [Nat.mul_succ, Nat.mul_comm]
    omega

lemma cbcEnc_all16 (E : List Byte → List Byte)
    (hElen : ∀ x, x.length = 16 → (E x).length = 16) :
    ∀ (cs : List (List Byte)) (prev : List Byte), prev.length = 16 →
      (∀ c ∈ cs, c.length = 16) → ∀ e ∈ cbcEnc E prev cs, e.length = 16 := by
  intro cs
  induction cs with
  | nil => intro prev _ _ e he; simp [cbcEnc] at he
  | cons c cs ih =>
    intro prev hprev hall e he
    have hc : c.length = 16 := hall c (List.mem_cons_self c cs)
    have hxl : (xorBytes prev c).length = 16 := by
      rw [xorBytes_length, hprev, hc]; simp
    have hel : (E (xorBytes prev c)).length = 16 := hElen _ hxl
    rw [show cbcEnc E prev (c :: cs) =
      E (xorBytes prev c) :: cbcEnc E (E (xorBytes prev c)) cs from rfl] at he
    rcases List.mem_cons.mp he with h1 | h2
    · subst h1; exact hel
    · exact ih _ hel (fun d hd => hall d (List.mem_cons_of_mem c hd)) e h2

lemma cbcDec_cbcEnc (E D : List Byte → List Byte)
    (hED : ∀ x, x.length = 16 → D (E x) = x)
    (hElen : ∀ x, x.length = 16 → (E x).length = 16) :
    ∀ (cs : List (List Byte)) (prev : List Byte), prev.length = 16 →
      (∀ c ∈ cs, c.length = 16) → cbcDec D prev (cbcEnc E prev cs) = cs := by
  intro cs
  induction cs with
  | nil => intro prev _ _; rfl
  | cons c cs ih =>
    intro prev hprev hall
    have hc : c.length = 16 := hall c (List.mem_cons_self c cs)
    have hxl : (xorBytes prev c).length = 16 := by
      rw [xorBytes_length, hprev, hc]; simp
    have hel : (E (xorBytes prev c)).length = 16 := hElen _ hxl
    rw [show cbcEnc E prev (c :: cs) =
      E (xorBytes prev c) :: cbcEnc E (E (xorBytes prev c)) cs from rfl]
    rw [show cbcDec D prev (E (xorBytes prev c) :: cbcEnc E (E (xorBytes prev c)) cs) =
      xorBytes prev (D (E (xorBytes prev c))) ::
        cbcDec D (E (xorBytes prev c)) (cbcEnc E (E (xorBytes prev c)) cs) from rfl]
    rw [hED _ hxl, xorBytes_cancel prev c (by omega),
      ih _ hel (fun d hd => hall d (List.mem_cons_of_mem c hd))]

lemma pkcs7pad_length (b : List Byte) :
    (pkcs7pad b).length = b.length + (16 - b.length % 16) := by
  simp [pkcs7pad]

lemma pkcs7pad_mod (b : List Byte) : (pkcs7pad b).length % 16 = 0 := by
  rw [pkcs7pad_length]
  omega

/-- Decrypting an encryption under the same secret's block cipher pair recovers the
plaintext: the source's CBC chaining and PKCS#7 stripping invert its padding and
chaining for every IV of block size. -/
lemma CryptorDecrypt_CryptorEncrypt (E D : List Byte → List Byte) (iv m : List Byte)
    (hED : ∀ x, x.length = 16 → D (E x) = x)
    (hElen : ∀ x, x.length = 16 → (E x).length = 16)
    (hiv : iv.length = 16) :
    CryptorDecrypt D (CryptorEncrypt E iv m) = .ok m := by
  have hpadmod : (pkcs7pad m).length % 16 = 0 := pkcs7pad_mod m
  have hall : ∀ c ∈ chunks16 (pkcs7pad m), c.length = 16 :=
    chunksAux_all16 _ _ hpadmod (Nat.le_refl _)
  have hflat : (chunks16 (pkcs7pad m)).flatten = pkcs7pad m :=
    chunksAux_flatten _ _ (Nat.le_refl _)
  have hencall : ∀ e ∈ cbcEnc E iv (chunks16 (pkcs7pad m)), e.length = 16 :=
    cbcEnc_all16 E hElen _ iv hiv hall
  have hctlen : (cbcEnc E iv (chunks16 (pkcs7pad m))).flatten.length =
      16 * (cbcEnc E iv (chunks16 (pkcs7pad m))).length :=
    flatten_length_all16 _ hencall
  have henc : CryptorEncrypt E iv m =
      iv ++ (cbcEnc E iv (chunks16 (pkcs7pad m))).flatten := rfl
  rw [henc]
  have hlen : (iv ++ (cbcEnc E iv (chunks16 (pkcs7pad m))).flatten).length =
      16 + 16 * (cbcEnc E iv (chunks16 (pkcs7pad m))).length := by
    rw [List.length_append, hiv, hctlen]
  rw [CryptorDecrypt]
  rw [if_neg (by omega)]
  rw [List.take_left' hiv, List.drop_left' hiv]
  have hchunks : chunks16 (cbcEnc E iv (chunks16 (pkcs7pad m))).flatten =
      cbcEnc E iv (chunks16 (pkcs7pad m)) :=
    chunksAux_of_flatten _ _ hencall (Nat.le_refl _)
  rw [if_neg (by rw [hctlen]; omega)]
  rw [hchunks, cbcDec_cbcEnc E D hED hElen _ iv hiv hall, hflat]
  have hp1 : 1 ≤ 16 - m.length % 16 := by omega
  have hlenpad : (pkcs7pad m).length = m.length + (16 - m.length % 16) :=
    pkcs7pad_length m
  rw [if_neg (by rw [hlenpad]; omega)]
  have hgetD : (pkcs7pad m).getD ((pkcs7pad m).length - 1) 0 = 16 - m.length % 16 := by
    rw [pkcs7pad, List.getD_eq_getElem?_getD]
    have hidx : m.length + (16 - m.length % 16) - 1 ≥ m.length := by omega
    rw [show (m ++ List.replicate (16 - m.length % 16) (16 - m.length % 16)).length - 1 =
      m.length + (16 - m.length % 16) - 1 by simp]
    rw [List.getElem?_append_right (by omega), List.getElem?_replicate]
    rw [if_pos (by omega)]
    rfl
  rw [hgetD]
  rw [if_neg (by rw [hlenpad]; omega)]
  have htake : (pkcs7pad m).take ((pkcs7pad m).length - (16 - m.length % 16)) = m := by
    rw [hlenpad, show m.length + (16 - m.length % 16) - (16 - m.length % 16) =
      m.length from by omega]
    rw [pkcs7pad]
    exact List.take_left' rfl
  rw [htake]

/-- C6: for every byte string, every IV of block size, every block cipher pair
obtained from an accepted AES secret (characterised by the inversion and
block-length properties of `aes.NewCipher`), every compressor satisfying the snappy
round-trip contract, and every flag combination (compression on/off, encryption
on/off), decoding the encoding returns exactly the input. -/
theorem C6_pipeline_roundtrip (flags : Nat) (E D : List Byte → List Byte)
    (comp : List Byte → List Byte) (dcomp : List Byte → Option (List Byte))
    (iv b : List Byte)
    (hED : ∀ x, x.length = 16 → D (E x) = x)
    (hElen : ∀ x, x.length = 16 → (E x).length = 16)
    (hcomp : ∀ y, dcomp (comp y) = some y)
    (hiv : iv.length = 16) :
    Pipeline.Decode { flags := flags, encryptor := some (E, D),
                      compressor := some (comp, dcomp) }
      (Pipeline.Encode { flags := flags, encryptor := some (E, D),
                         compressor := some (comp, dcomp) } iv b) = .ok b := by
  cases he : Pipeline.IsEncryptionEnabled
      { flags := flags, encryptor := some (E, D), compressor := some (comp, dcomp) } <;>
  cases hc : Pipeline.IsCompressionEnabled
      { flags := flags, encryptor := some (E, D), compressor := some (comp, dcomp) } <;>
  simp only [Pipeline.Encode, Pipeline.Decode, he, hc] <;>
  simp [CryptorDecrypt_CryptorEncrypt E D iv _ hED hElen hiv, hcomp]

/-- C6 witness: the round trip evaluated at a concrete configuration with both
stages enabled, the identity block permutation and the identity compressor. -/
theorem C6_pipeline_roundtrip_witness :
    (∀ x : List Byte, x.length = 16 → (fun y => y) ((fun y => y) x) = x) ∧
    (∀ x : List Byte, x.length = 16 → ((fun (y : List Byte) => y) x).length = 16) ∧
    (∀ y : List Byte, (fun z => some z) ((fun (z : List Byte) => z) y) = some y) ∧
    (List.replicate 16 0 : List Byte).length = 16 ∧
    Pipeline.Decode { flags := 3, encryptor := some (fun y => y, fun y => y),
                      compressor := some (fun z => z, fun z => some z) }
      (Pipeline.Encode { flags := 3, encryptor := some (fun y => y, fun y => y),
                         compressor := some (fun z => z, fun z => some z) }
        (List.replicate 16 0) [7, 8, 9]) = .ok [7, 8, 9] :=
  ⟨fun _ _ => rfl, fun _ h => h, fun _ => rfl, by decide,
    C6_pipeline_roundtrip 3 (fun y => y) (fun y => y) (fun z => z) (fun z => some z)
      (List.replicate 16 0) [7, 8, 9] (fun _ _ => rfl) (fun _ h => h) (fun _ => rfl)
      (by decide)⟩

end UrnaDB
